import Mathlib

set_option linter.unusedVariables false

/-!
# Verification of the DIYbyt sync / render pipeline

Shallow embedding of the three source files of the repository:

* `DIYbyt-Sync/sync_service.py` — directory fingerprint, zip archiving,
  debounced sync, hash advancement;
* `DIYbyt-Server/pixlet_renderer.py` — upload endpoint, render-task
  reconciliation, per-program render loop;
* `DIYbyt-Client/src/components/DIYbyt_Display.py` — metadata loading and
  display-side slot computation.

Python strings are compared by code point; `String` library functions do not
reduce in the kernel, so string tests (`startswith`, `endswith`, `sorted`
order) are embedded as structural functions over `String.data` (the list of
characters), which is exactly Python's code-point semantics.
-/

namespace DIYbyt

/-! ## Character-list string primitives (Python string semantics) -/

/-- Python `s.startswith('.')`: true iff the first character is `'.'`. -/
def startsWithDot (s : String) : Bool :=
  match s.data with
  | [] => false
  | c :: _ => c == '.'

/-- Python `s.endswith('.tmp')`: true iff the last four characters are `.tmp`. -/
def endsWithTmp (s : String) : Bool :=
  s.data.reverse.take 4 == ".tmp".data.reverse

/-- Python string `<=`: lexicographic comparison of code-point sequences. -/
def charsLe : List Char → List Char → Bool
  | [], _ => true
  | _ :: _, [] => false
  | a :: as, b :: bs => if a < b then true else if b < a then false else charsLe as bs

/-- Python `s <= t` on strings. -/
def strLe (s t : String) : Bool := charsLe s.data t.data

theorem charsLe_total : ∀ as bs : List Char, charsLe as bs = true ∨ charsLe bs as = true := by
  intro as
  induction as with
  | nil => intro bs; left; rfl
  | cons a as ih =>
    intro bs
    cases bs with
    | nil => right; rfl
    | cons b bs =>
      by_cases hab : a < b
      · left; simp [charsLe, hab]
      · by_cases hba : b < a
        · right; simp [charsLe, hba]
        · rcases ih bs with h | h
          · left; simp [charsLe, hab, hba, h]
          · right; simp [charsLe, hba, hab, h]

theorem charsLe_trans : ∀ as bs cs : List Char,
    charsLe as bs = true → charsLe bs cs = true → charsLe as cs = true := by
  intro as
  induction as with
  | nil => intro bs cs _ _; rfl
  | cons a as ih =>
    intro bs cs h₁ h₂
    cases bs with
    | nil => simp [charsLe] at h₁
    | cons b bs =>
      cases cs with
      | nil => simp [charsLe] at h₂
      | cons c cs =>
        simp only [charsLe] at h₁ h₂ ⊢
        by_cases hab : a < b
        · by_cases hbc : b < c
          · have hac : a < c := lt_trans hab hbc
            simp [hac]
          · by_cases hcb : c < b
            · simp [hab, hbc, hcb] at h₂
            · have hbc' : b = c := le_antisymm (not_lt.mp hcb) (not_lt.mp hbc)
              subst hbc'
              simp [hab]
        · by_cases hba : b < a
          · simp [hab, hba] at h₁
          · have hba' : a = b := le_antisymm (not_lt.mp hba) (not_lt.mp hab)
            subst hba'
            simp only [lt_irrefl, if_false] at h₁
            by_cases hbc : a < c
            · simp [hbc]
            · by_cases hcb : c < a
              · simp [hbc, hcb] at h₂
              · simp [hbc, hcb] at h₂ ⊢
                exact ih bs cs h₁ h₂

theorem charsLe_antisymm : ∀ as bs : List Char,
    charsLe as bs = true → charsLe bs as = true → as = bs := by
  intro as
  induction as with
  | nil =>
    intro bs _ h₂
    cases bs with
    | nil => rfl
    | cons b bs => simp [charsLe] at h₂
  | cons a as ih =>
    intro bs h₁ h₂
    cases bs with
    | nil => simp [charsLe] at h₁
    | cons b bs =>
      simp only [charsLe] at h₁ h₂
      by_cases hab : a < b
      · have : ¬ b < a := lt_asymm hab
        simp [hab, this] at h₂
      · by_cases hba : b < a
        · simp [hab, hba] at h₁
        · have hba' : a = b := le_antisymm (not_lt.mp hba) (not_lt.mp hab)
          subst hba'
          simp only [lt_irrefl, if_false] at h₁ h₂
          rw [ih bs h₁ h₂]

theorem strLe_total (s t : String) : strLe s t = true ∨ strLe t s = true :=
  charsLe_total s.data t.data

theorem strLe_trans {s t u : String} (h₁ : strLe s t = true) (h₂ : strLe t u = true) :
    strLe s u = true :=
  charsLe_trans s.data t.data u.data h₁ h₂

theorem strLe_antisymm {s t : String} (h₁ : strLe s t = true) (h₂ : strLe t s = true) :
    s = t := by
  cases s; cases t
  exact congrArg String.mk (charsLe_antisymm _ _ h₁ h₂)

/-! ## Filesystem model

A directory tree is modeled as the list of entries that `rglob('*')` yields,
in the (arbitrary) order the filesystem enumerates them.  Each entry carries
its path relative to the watched root as a list of components, whether it is
a regular file (`is_file()`), and its byte contents. -/

structure FsEntry where
  path : List String
  isFile : Bool
  contents : List Nat
deriving DecidableEq, Repr

/-- `str(path)` of a relative path: components joined by `/` (POSIX). -/
def pathStr (p : List String) : String := String.intercalate "/" p

/-- `path.name`: the final path component. -/
def fileName (f : FsEntry) : String := f.path.getLastD ""

/-- Bytes fed to the hasher for a string: its code points.  Models
`str(...).encode()`; for the ASCII paths of this system the UTF-8 bytes and
the code points coincide, and both encodings are injective per character. -/
def strBytes (s : String) : List Nat := s.data.map Char.toNat

/-! ## `SyncService.calculate_directory_hash` (sync_service.py, lines 65-84)

```python
files = sorted(
    f for f in self.star_programs_path.rglob('*')
    if f.is_file() and not f.name.startswith('.')
)
for file_path in files:
    hasher.update(str(file_path.relative_to(self.star_programs_path)).encode())
    with open(file_path, 'rb') as f:
        while chunk := f.read(8192):
            hasher.update(chunk)
return hasher.hexdigest()
```

The SHA-256 digest is a function of exactly the byte stream absorbed by
`hasher.update`, so the digest is modeled by that absorbed stream:
equal streams give equal digests, and distinct streams give distinct digests
up to SHA-256 collision resistance.  `sorted` on `Path` objects compares the
full path strings; since every path shares the prefix `root + '/'`, that
order equals code-point order on the relative path strings, and Python's
`sorted` is a stable sort, which `List.insertionSort` also is. -/

/-- The filter of `calculate_directory_hash`:
`f.is_file() and not f.name.startswith('.')`. -/
def hashIncluded (f : FsEntry) : Bool := f.isFile && !startsWithDot (fileName f)

/-- Order in which `sorted(...)` arranges two entries. -/
def pathLeP (a b : FsEntry) : Prop := strLe (pathStr a.path) (pathStr b.path) = true

instance : DecidableRel pathLeP := fun _ _ => instDecidableEqBool _ _

instance : IsTotal FsEntry pathLeP :=
  ⟨fun a b => strLe_total (pathStr a.path) (pathStr b.path)⟩

instance : IsTrans FsEntry pathLeP :=
  ⟨fun _ _ _ h₁ h₂ => strLe_trans h₁ h₂⟩

/-- The `files` variable: included entries, sorted by path. -/
def sortedFiles (fs : List FsEntry) : List FsEntry :=
  List.insertionSort pathLeP (fs.filter hashIncluded)

/-- Bytes absorbed for one file: its relative path string, then its contents
(the 8192-byte chunks concatenate back to the full contents). -/
def fileBlock (f : FsEntry) : List Nat := strBytes (pathStr f.path) ++ f.contents

/-- The full byte stream absorbed by the SHA-256 hasher; the directory
fingerprint is SHA-256 of exactly this stream. -/
def directoryHashStream (fs : List FsEntry) : List Nat :=
  ((sortedFiles fs).map fileBlock).flatten

/-! ## `SyncService.create_zip_archive` (sync_service.py, lines 86-98)

```python
with zipfile.ZipFile(temp_zip, 'w', zipfile.ZIP_DEFLATED) as zipf:
    for file_path in self.star_programs_path.rglob('*'):
        if file_path.is_file() and not file_path.name.startswith('.'):
            arcname = file_path.relative_to(self.star_programs_path)
            zipf.write(file_path, arcname)
```

Members are written in the order `rglob` enumerates them — there is no
`sorted` here. -/

/-- The filter of `create_zip_archive`:
`file_path.is_file() and not file_path.name.startswith('.')`. -/
def zipIncluded (f : FsEntry) : Bool := f.isFile && !startsWithDot (fileName f)

/-- The zip archive: one member `(arcname, contents)` per included entry, in
filesystem enumeration order. -/
def zipMembers (fs : List FsEntry) : List (String × List Nat) :=
  (fs.filter zipIncluded).map (fun f => (pathStr f.path, f.contents))

/-! ## Program metadata (`program_metadata.json`)

A JSON object keyed by program name, in insertion order.  Each value is an
object; the fields the code reads are modeled as `Option`s, `none` meaning
the key is absent, so `config.get(k, d)` is `(·.k).getD d`. -/

structure ProgEntry where
  enabled : Option Bool := none
  refresh_rate : Option Nat := none
  duration : Option String := none
  durationUnit : Option String := none
  order : Option Nat := none
  render_server_url : Option String := none
deriving DecidableEq, Repr

/-- The configuration document: key/value pairs in document iteration
order.  JSON object keys are unique, stated as `Nodup` where a proof
needs it. -/
abbrev Metadata := List (String × ProgEntry)

/-! ## `update_render_tasks` (pixlet_renderer.py, lines 127-176)

```python
metadata_path = CACHE_DIR / "program_metadata.json"
if not metadata_path.exists():
    logger.warning("No metadata file found in cache")
    return
with open(metadata_path) as f:
    metadata = json.load(f)
# Cancel existing tasks
for task in render_tasks.values():
    if not task.done():
        task.cancel()
render_tasks.clear()
renderer = PixletRenderer()
slot_number = 0
for program_name, config in metadata.items():
    if not config.get("enabled", False):
        continue
    program_path = CACHE_DIR / program_name
    if not program_path.exists():
        logger.warning(f"Program file {program_name} not found")
        continue
    refresh_rate = config.get("refresh_rate", 60)
    task = asyncio.create_task(continuous_render(...))
    render_tasks[program_name] = task
    slot_number += 1
except Exception as e:
    logger.error(f"Error updating render tasks: {e}")
    raise
```

Note the order of the failure points:
* a missing metadata file returns *before* the cancel loop;
* a `json.load` failure raises *before* the cancel loop (the `except`
  re-raises after logging);
in both of those cases the previously running tasks survive.  But a
document that *parses* and only then misbehaves fails *after* the cancel
loop has cancelled every prior task and cleared `render_tasks`:
* a top-level value that is not an object (e.g. a JSON array) makes
  `metadata.items()` raise `AttributeError` with zero tasks registered;
* an object whose value for some key is not itself an object makes
  `config.get("enabled", False)` raise `AttributeError` when the loop
  reaches that entry, leaving the tasks created for the earlier entries
  registered in `render_tasks`.
There is no special case for the reserved `_config` key. -/

/-- One running render loop: program name, assigned slot, refresh rate. -/
structure RenderTask where
  program : String
  slot : Nat
  refresh : Nat
deriving DecidableEq, Repr

/-- A JSON value sitting in an entry position of the parsed document:
either a JSON object (carrying the fields the code reads), or any
non-object value, on which `config.get(...)` raises `AttributeError`. -/
inductive ConfigValue
  | objVal (c : ProgEntry)
  | nonObject
deriving DecidableEq, Repr

/-- Whether an entry value is a JSON object. -/
def ConfigValue.isObj : ConfigValue → Bool
  | .objVal _ => true
  | .nonObject => false

/-- What `json.load` can successfully return: a top-level value that is not
an object (`.items()` raises), or an object as ordered key/value pairs. -/
inductive ParsedDoc
  | nonObjectTop
  | object (entries : List (String × ConfigValue))
deriving DecidableEq, Repr

/-- A well-typed document, embedded into the parsed-document entries. -/
def wellFormedEntries (md : Metadata) : List (String × ConfigValue) :=
  md.map (fun e => (e.1, ConfigValue.objVal e.2))

/-- The `for program_name, config in metadata.items()` loop, carrying
`slot_number`, restricted to documents whose values are all objects (the
case every other claim is about).  `ex name` models
`(CACHE_DIR / name).exists()`. -/
def renderTaskLoop (ex : String → Bool) : Nat → Metadata → List RenderTask
  | _, [] => []
  | slot, (n, c) :: rest =>
    if !(c.enabled.getD false) then renderTaskLoop ex slot rest
    else if !(ex n) then renderTaskLoop ex slot rest
    else ⟨n, slot, c.refresh_rate.getD 60⟩ :: renderTaskLoop ex (slot + 1) rest

/-- Outcome of one reconciliation: whether an exception escaped
(`raise` at line 176), and the resulting `render_tasks` set. -/
structure ReconcileResult where
  raised : Bool
  tasks : List RenderTask
deriving DecidableEq, Repr

/-- The same `for` loop over arbitrary parsed entries: reaching an entry
whose value is not an object raises `AttributeError` at
`config.get("enabled", False)`, so iteration stops there and the tasks
created for the earlier entries stay registered. -/
def renderTaskLoopE (ex : String → Bool) : Nat → List (String × ConfigValue) → ReconcileResult
  | _, [] => ⟨false, []⟩
  | _, (_, .nonObject) :: _ => ⟨true, []⟩
  | slot, (n, .objVal c) :: rest =>
    if !(c.enabled.getD false) then renderTaskLoopE ex slot rest
    else if !(ex n) then renderTaskLoopE ex slot rest
    else
      let r := renderTaskLoopE ex (slot + 1) rest
      ⟨r.raised, ⟨n, slot, c.refresh_rate.getD 60⟩ :: r.tasks⟩

/-- `update_render_tasks`.  `doc` is the state of the metadata file in the
cache: `none` = file missing (early return, prior tasks untouched),
`some (.error ())` = present but `json.load` raises (re-raised, prior tasks
untouched), `some (.ok pd)` = `json.load` returns `pd` — then the cancel
loop has already cancelled and discarded every prior task before the
iteration over `pd` starts. -/
def update_render_tasks (prior : List RenderTask) (doc : Option (Except Unit ParsedDoc))
    (ex : String → Bool) : ReconcileResult :=
  match doc with
  | none => ⟨false, prior⟩
  | some (.error _) => ⟨true, prior⟩
  | some (.ok .nonObjectTop) => ⟨true, []⟩
  | some (.ok (.object entries)) => renderTaskLoopE ex 0 entries

theorem wellFormedEntries_cons (e : String × ProgEntry) (md : Metadata) :
    wellFormedEntries (e :: md) = (e.1, ConfigValue.objVal e.2) :: wellFormedEntries md := rfl

/-- On a fully well-typed document the general loop raises nothing and
produces exactly the tasks of `renderTaskLoop`. -/
theorem renderTaskLoopE_wellFormed (ex : String → Bool) :
    ∀ (md : Metadata) (k : Nat),
      renderTaskLoopE ex k (wellFormedEntries md) = ⟨false, renderTaskLoop ex k md⟩ := by
  intro md
  induction md with
  | nil => intro k; rfl
  | cons e rest ih =>
    intro k
    obtain ⟨n, c⟩ := e
    rw [wellFormedEntries_cons]
    by_cases hen : c.enabled.getD false
    · by_cases hex : ex n
      · simp only [renderTaskLoopE, renderTaskLoop, hen, hex, Bool.not_true,
          Bool.false_eq_true, if_false]
        rw [ih (k + 1)]
      · simp only [renderTaskLoopE, renderTaskLoop, hen, hex, Bool.not_true, Bool.not_false,
          Bool.false_eq_true, if_false, if_true]
        exact ih k
    · simp only [renderTaskLoopE, renderTaskLoop, hen, Bool.not_false, if_true]
      exact ih k

/-- A well-typed prefix followed by a non-object value: the loop creates
the prefix's tasks, then raises at the bad entry. -/
theorem renderTaskLoopE_nonObject (ex : String → Bool) :
    ∀ (md : Metadata) (k : Nat) (bad : String) (rest : List (String × ConfigValue)),
      renderTaskLoopE ex k (wellFormedEntries md ++ (bad, ConfigValue.nonObject) :: rest)
        = ⟨true, renderTaskLoop ex k md⟩ := by
  intro md
  induction md with
  | nil => intro k bad rest; rfl
  | cons e tail ih =>
    intro k bad rest
    obtain ⟨n, c⟩ := e
    rw [wellFormedEntries_cons, List.cons_append]
    by_cases hen : c.enabled.getD false
    · by_cases hex : ex n
      · simp only [renderTaskLoopE, renderTaskLoop, hen, hex, Bool.not_true,
          Bool.false_eq_true, if_false]
        rw [ih (k + 1) bad rest]
      · simp only [renderTaskLoopE, renderTaskLoop, hen, hex, Bool.not_true, Bool.not_false,
          Bool.false_eq_true, if_false, if_true]
        exact ih k bad rest
    · simp only [renderTaskLoopE, renderTaskLoop, hen, Bool.not_false, if_true]
      exact ih k bad rest

/-! ## `update_programs` — the `/update` endpoint (pixlet_renderer.py, lines 178-210)

```python
try:
    with tempfile.NamedTemporaryFile(delete=False) as temp_file:
        shutil.copyfileobj(file.file, temp_file)
    try:
        if CACHE_DIR.exists():
            shutil.rmtree(CACHE_DIR)        # cache cleared FIRST
        CACHE_DIR.mkdir()
        with zipfile.ZipFile(temp_file.name, 'r') as zip_ref:
            zip_ref.extractall(CACHE_DIR)   # extraction AFTER clearing
        await update_render_tasks()
        return {"status": "success", ...}
    finally:
        os.unlink(temp_file.name)
except Exception as e:
    return {"status": "error", "message": str(e)}
```

A handler returning a plain dict is served by FastAPI with HTTP status 200,
for the error payload as well as the success payload. -/

/-- An uploaded archive: either it extracts to `files` (whose contained
metadata file is in state `doc`), or `ZipFile`/`extractall` raises. -/
inductive Upload
  | okArchive (files : List (String × List Nat)) (doc : Option (Except Unit ParsedDoc))
  | corruptArchive

/-- Result of one `/update` request: the JSON `status` field, the HTTP
status code, and the cache directory and task set afterwards. -/
structure UpdateOutcome where
  payloadStatus : String
  httpStatus : Nat
  cache : List (String × List Nat)
  tasks : List RenderTask

def update_programs (cache : List (String × List Nat)) (tasks : List RenderTask)
    (up : Upload) (ex : String → Bool) : UpdateOutcome :=
  match up with
  | .corruptArchive =>
      -- rmtree + mkdir already ran, extractall raised: cache is left empty
      ⟨"error", 200, [], tasks⟩
  | .okArchive files doc =>
      let r := update_render_tasks tasks doc ex
      if r.raised then ⟨"error", 200, files, r.tasks⟩
      else ⟨"success", 200, files, r.tasks⟩

/-! ## `SyncService.sync_to_server` (sync_service.py, lines 100-130)

```python
current_hash = self.calculate_directory_hash()
if current_hash != self.last_hash:
    zip_path = await self.create_zip_archive()
    try:
        async with aiohttp.ClientSession() as session:
            ...
            async with session.post(f".../update", data=files) as response:
                if response.status == 200:
                    self.last_hash = current_hash
                else:
                    logger.error(...)
    finally:
        zip_path.unlink()
except Exception as e:
    logger.error(f"Error during sync: {e}")
```

The client inspects only the HTTP status code, never the JSON `status`
payload.  Any exception (zip creation, network) lands in the outer
`except`, leaving `last_hash` unchanged. -/

/-- What the transfer attempt produced: an HTTP response (status code plus
the server's JSON `status` payload), or an exception (network error, zip
failure, ...). -/
inductive TransferOutcome
  | response (httpStatus : Nat) (payloadStatus : String)
  | networkError

/-- One run of `sync_to_server`, returning the new `self.last_hash`.
`last` is the stored hash (`None` initially), `current` the freshly
computed `calculate_directory_hash()`. -/
def sync_to_server (last : Option String) (current : String)
    (transfer : TransferOutcome) : Option String :=
  if some current ≠ last then
    match transfer with
    | .response st _ => if st = 200 then some current else last
    | .networkError => last
  else last

/-! ## `StarProgramsHandler` — the debouncer (sync_service.py, lines 30-51)

```python
def on_any_event(self, event):
    if event.is_directory or event.src_path.endswith('.tmp'):
        return
    if self.debounce_timer:
        self.debounce_timer.cancel()
    self.debounce_timer = asyncio.create_task(self.debounce_sync())

async def debounce_sync(self):
    await asyncio.sleep(2)
    await self.sync_service.sync_to_server()
```

Event timestamps are modeled as natural numbers (seconds); the debouncer
only ever compares a timestamp against a previously armed deadline
`t + 2`.  The state is the single `debounce_timer` field: `none` = idle,
`some d` = a timer armed to fire at deadline `d`, plus a count of completed
`sync_to_server` invocations.  A cancelled timer never fires; a timer whose
deadline has passed has already invoked the sync exactly once. -/

structure FsEvent where
  time : Nat
  isDirectory : Bool
  srcPath : String
deriving DecidableEq, Repr

structure DebounceState where
  pending : Option Nat
  syncs : Nat
deriving DecidableEq, Repr

/-- Initial handler state: `self.debounce_timer = None`, no syncs yet. -/
def initDebounce : DebounceState := ⟨none, 0⟩

/-- Let an armed timer fire if its deadline has been reached by time `t`:
`debounce_sync` wakes from its 2-second sleep and runs the sync once. -/
def fireUpTo (s : DebounceState) (t : Nat) : DebounceState :=
  match s.pending with
  | some d => if d ≤ t then ⟨none, s.syncs + 1⟩ else s
  | none => s

/-- `on_any_event`: directory events and `.tmp` files are ignored;
otherwise any armed timer is cancelled and a fresh one is armed with a
2-second quiet window. -/
def on_any_event (s : DebounceState) (e : FsEvent) : DebounceState :=
  if e.isDirectory || endsWithTmp e.srcPath then s
  else ⟨some (e.time + 2), s.syncs⟩

/-- Deliver a list of events in time order, firing any due timer before
each delivery. -/
def processEvents (s : DebounceState) : List FsEvent → DebounceState
  | [] => s
  | e :: rest => processEvents (on_any_event (fireUpTo s e.time) e) rest

/-- Run a whole trace from the idle state and then let time advance to
`tEnd`. -/
def runTrace (events : List FsEvent) (tEnd : Nat) : DebounceState :=
  fireUpTo (processEvents initDebounce events) tEnd

/-! ## `PixletRenderer.render_app` and `continuous_render`
(pixlet_renderer.py, lines 51-125)

```python
async def render_app(self, app_path, output_path, config=None) -> bool:
    try:
        ...
        process = await asyncio.create_subprocess_exec(*cmd, ...)
        stdout, stderr = await process.communicate()
        if process.returncode != 0:
            ...
            raise Exception(f"Pixlet render failed: ...")
        return True
    except Exception as e:
        ...
        return False

while True:
    try:
        start_time = datetime.now()
        if await renderer.render_app(program_path, temp_output, ...):
            await renderer.copy_to_slot(temp_output, slot_number)
        if temp_output.exists():
            temp_output.unlink()
        elapsed = (datetime.now() - start_time).total_seconds()
        sleep_time = max(0.1, refresh_rate - elapsed)
        await asyncio.sleep(sleep_time)
    except asyncio.CancelledError:
        ...
        raise
    except Exception as e:
        ...
        await asyncio.sleep(5)  # Wait before retrying on error
```

A non-zero exit of the external renderer raises *inside* `render_app`,
whose own `except` swallows it and returns `False`; the `while` body then
proceeds to the normal `max(0.1, refresh_rate - elapsed)` sleep.  The
5-second backoff is reached only when some other exception escapes the
`while` body.  Durations are modeled as rationals (seconds). -/

/-- Outcome of the external `pixlet render` invocation. -/
inductive ExecOutcome
  | completed (returncode : Nat)
  | spawnError
deriving DecidableEq

/-- `render_app`: `True` on a zero exit code; a non-zero exit raises and is
caught by the function's own `except`, giving `False`; a failure to spawn
also lands in the `except`. -/
def render_app (out : ExecOutcome) : Bool :=
  match out with
  | .completed rc => if rc ≠ 0 then false else true
  | .spawnError => false

/-- Something that interrupts one iteration of the `while True` body:
cooperative cancellation, or an unexpected exception escaping the body
(the render/copy failures do NOT raise — they return `False`). -/
inductive BodyFault
  | cancelled
  | exn
deriving DecidableEq

/-- How one loop iteration ends. -/
inductive CycleEnd
  | ranNormally (published : Bool) (sleep : ℚ)
  | errorBackoff (sleep : ℚ)
  | cancelledExit
deriving DecidableEq

/-- One iteration of the `while True` loop of `continuous_render`. -/
def continuous_render_cycle (out : ExecOutcome) (fault : Option BodyFault)
    (refresh : Nat) (elapsed : ℚ) : CycleEnd :=
  match fault with
  | some .cancelled => .cancelledExit
  | some .exn => .errorBackoff 5
  | none => .ranNormally (render_app out) (max (1/10) ((refresh : ℚ) - elapsed))

/-- The sleep the loop performs after the iteration, if it sleeps. -/
def cycleSleep : CycleEnd → Option ℚ
  | .ranNormally _ s => some s
  | .errorBackoff s => some s
  | .cancelledExit => none

/-- Whether the loop runs another iteration afterwards: only cancellation
exits the `while True`. -/
def cycleContinues : CycleEnd → Bool
  | .cancelledExit => false
  | _ => true

/-! ## `load_program_metadata` (DIYbyt_Display.py, lines 82-114)

```python
try:
    with open(metadata_path, 'r') as f:
        metadata = json.load(f)
    server_url = metadata.get('_config', {}).get('render_server_url', 'http://localhost:8000')
    enabled_programs = []
    for program_name, config in metadata.items():
        if program_name == '_config':
            continue
        if config.get('enabled', False):
            slot_number = len(enabled_programs)
            program_config = {
                'name': program_name,
                'duration': config.get('duration', '30'),
                'durationUnit': config.get('durationUnit', 'seconds'),
                'order': config.get('order', 999),
                'slot': f'slot{slot_number}.gif'
            }
            enabled_programs.append(program_config)
    return server_url, sorted(enabled_programs, key=lambda x: x['order'])
except Exception as e:
    return 'http://localhost:8000', []
```

The slot number is fixed by document iteration order (the position in
`enabled_programs` at append time), before the final stable sort by
`order`. -/

structure DisplayProg where
  name : String
  duration : String
  durationUnit : String
  order : Nat
  slot : Nat
deriving DecidableEq, Repr

/-- The `for program_name, config in metadata.items()` loop, building
`enabled_programs`; the slot number of an appended program is the length of
the accumulator at append time. -/
def buildEnabled (acc : List DisplayProg) : Metadata → List DisplayProg
  | [] => acc
  | (n, c) :: rest =>
    if n = "_config" then buildEnabled acc rest
    else if c.enabled.getD false then
      buildEnabled
        (acc ++ [⟨n, c.duration.getD "30", c.durationUnit.getD "seconds",
                  c.order.getD 999, acc.length⟩]) rest
    else buildEnabled acc rest

/-- `sorted(enabled_programs, key=lambda x: x['order'])`: Python's sort is
stable, as is `insertionSort`. -/
def orderLeP (a b : DisplayProg) : Prop := a.order ≤ b.order

instance : DecidableRel orderLeP := fun a b => Nat.decLe a.order b.order

/-- Extract the (name, object) pairs of a parsed object document; when all
values are objects this is the whole document. -/
def asMetadata (entries : List (String × ConfigValue)) : Metadata :=
  entries.filterMap (fun e => match e.2 with
    | .objVal c => some (e.1, c)
    | .nonObject => none)

/-- `load_program_metadata`; `doc` is `.error ()` when opening or parsing
the metadata file raises.  A parsed top-level value that is not an object
makes `metadata.items()` raise `AttributeError`; an object containing a
non-object value makes a `.get` raise (at the `_config` line, or at that
entry's loop turn).  Every such exception lands in the function's own
`except`, which returns the default pair and discards any partial work, so
the observable result depends only on whether the document is an object
all of whose values are objects. -/
def load_program_metadata (doc : Except Unit ParsedDoc) : String × List DisplayProg :=
  match doc with
  | .ok (.object entries) =>
      if entries.all (fun e => e.2.isObj) then
        ((((asMetadata entries).lookup "_config").bind (·.render_server_url)).getD
            "http://localhost:8000",
         List.insertionSort orderLeP (buildEnabled [] (asMetadata entries)))
      else ("http://localhost:8000", [])
  | _ => ("http://localhost:8000", [])

/-! ## Claim C1 -/

/-- Claim C1: the claim says a failed extraction leaves the previously
cached program directory untouched.  The handler deletes `CACHE_DIR`
*before* extracting: on a corrupt archive it returns the error payload with
the cache left empty, destroying the prior non-empty cache.  This theorem
evaluates the handler at that failing input. -/
theorem c1_failed_extraction_empties_cache :
    (update_programs [("prog.star", [1])] [] Upload.corruptArchive (fun _ => true)).payloadStatus
      = "error" ∧
    (update_programs [("prog.star", [1])] [] Upload.corruptArchive (fun _ => true)).cache = [] ∧
    ([("prog.star", [1])] : List (String × List Nat)) ≠ [] := by
  refine ⟨rfl, rfl, by decide⟩

/-! ## Claim C2 -/

/-- Claim C2 counterexample: the claim says the stored hash advances only
when the orchestrator host confirms success.  On a corrupt upload the host
returns the payload `"error"` — but with HTTP status 200, and the client
checks only the HTTP status, so the stored hash still advances from `h0` to
`h1`. -/
theorem c2_counterexample :
    (update_programs [("old.star", [1])] [] Upload.corruptArchive (fun _ => true)).payloadStatus
      = "error" ∧
    (update_programs [("old.star", [1])] [] Upload.corruptArchive (fun _ => true)).httpStatus
      = 200 ∧
    sync_to_server (some "h0") "h1" (.response 200 "error") = some "h1" ∧
    ("h1" : String) ≠ "h0" := by
  refine ⟨rfl, rfl, by decide, by decide⟩

/-- Claim C2 (amended): when the directory content changed, the stored hash
advances exactly when the HTTP status is 200; the server answers every
request — including its error payload — with HTTP 200, so any completed
transfer advances the hash; only a non-200 response or a transport
exception leaves the stored hash unchanged for a retry. -/
theorem c2_hash_advances_iff_http200 (last : Option String) (current : String)
    (cache : List (String × List Nat)) (tasks : List RenderTask) (up : Upload)
    (ex : String → Bool) (hchanged : some current ≠ last) :
    sync_to_server last current
      (.response (update_programs cache tasks up ex).httpStatus
                 (update_programs cache tasks up ex).payloadStatus) = some current ∧
    (∀ st p, st ≠ 200 → sync_to_server last current (.response st p) = last) ∧
    sync_to_server last current .networkError = last := by
  have h200 : (update_programs cache tasks up ex).httpStatus = 200 := by
    cases up with
    | corruptArchive => rfl
    | okArchive files doc =>
      simp only [update_programs]
      split <;> rfl
  refine ⟨?_, ?_, ?_⟩
  · rw [h200]
    simp [sync_to_server, hchanged]
  · intro st p hst
    simp [sync_to_server, hchanged, hst]
  · simp [sync_to_server, hchanged]

/-- Witness for C2: the hypotheses of `c2_hash_advances_iff_http200` hold at
a concrete input. -/
theorem c2_witness :
    sync_to_server none "h1"
      (.response (update_programs [] [] Upload.corruptArchive (fun _ => true)).httpStatus
                 (update_programs [] [] Upload.corruptArchive (fun _ => true)).payloadStatus)
      = some "h1" ∧
    (∀ st p, st ≠ 200 → sync_to_server none "h1" (.response st p) = none) ∧
    sync_to_server none "h1" .networkError = none :=
  c2_hash_advances_iff_http200 none "h1" [] [] Upload.corruptArchive (fun _ => true) (by decide)

/-! ## Claim C3 -/

/-- Claim C3 counterexample: the claim says reconciliation on a malformed or
missing configuration document completes without crashing and leaves zero
active render loops.  A malformed document makes `update_render_tasks`
re-raise (`raised = true`), and a missing document returns early with the
previously running loop still active (one loop, not zero). -/
theorem c3_counterexample :
    (update_render_tasks [] (some (Except.error ())) (fun _ => true)).raised = true ∧
    (update_render_tasks [⟨"p.star", 0, 60⟩] none (fun _ => true)).tasks
      = [⟨"p.star", 0, 60⟩] :=
  ⟨rfl, rfl⟩

/-- Claim C3 (amended): the failure mode of reconciliation depends on where
the document breaks.  A missing document returns early without error,
starting no loops and leaving prior loops running.  A document that fails
JSON parsing re-raises after logging, also leaving prior loops running
(both failures precede the cancel loop; the upload endpoint catches the
error, so the process survives).  A document that parses but is not an
object cancels every prior loop and then re-raises with zero loops active.
An object document containing a non-object value cancels every prior loop,
starts loops for the enabled-and-present entries preceding the bad value,
and then re-raises, leaving that partial task set active.  On the display
side, all of these failures yield the default host URL and an empty
program list. -/
theorem c3_reconcile_failure_behavior (prior : List RenderTask) (ex : String → Bool)
    (e : Unit) (md : Metadata) (bad : String) (rest : List (String × ConfigValue)) :
    update_render_tasks prior none ex = ⟨false, prior⟩ ∧
    update_render_tasks prior (some (.error e)) ex = ⟨true, prior⟩ ∧
    update_render_tasks prior (some (.ok .nonObjectTop)) ex = ⟨true, []⟩ ∧
    update_render_tasks prior
        (some (.ok (.object (wellFormedEntries md ++ (bad, ConfigValue.nonObject) :: rest)))) ex
      = ⟨true, renderTaskLoop ex 0 md⟩ ∧
    load_program_metadata (.error e) = ("http://localhost:8000", []) ∧
    load_program_metadata (.ok .nonObjectTop) = ("http://localhost:8000", []) ∧
    load_program_metadata
        (.ok (.object (wellFormedEntries md ++ (bad, ConfigValue.nonObject) :: rest)))
      = ("http://localhost:8000", []) := by
  refine ⟨rfl, rfl, rfl, ?_, rfl, rfl, ?_⟩
  · exact renderTaskLoopE_nonObject ex md 0 bad rest
  · have hnotall : ((wellFormedEntries md ++ (bad, ConfigValue.nonObject) :: rest).all
        (fun e => e.2.isObj)) = false := by
      simp [List.all_append, ConfigValue.isObj]
    simp [load_program_metadata, hnotall]

/-! ## Claim C5 -/

/-- Claim C5 counterexample: the claim says a failed renderer invocation
makes the loop suspend for a fixed 5-second backoff.  With a non-zero exit
code, `refresh_rate = 60` and one second elapsed, the iteration ends
normally (no publish) and sleeps `max(0.1, 60 - 1) = 59` seconds, not 5. -/
theorem c5_counterexample :
    continuous_render_cycle (.completed 1) none 60 1
      = .ranNormally false (max (1/10) ((60 : ℚ) - 1)) ∧
    cycleSleep (continuous_render_cycle (.completed 1) none 60 1) ≠ some 5 := by
  have h59 : (max (1/10) ((60 : ℚ) - 1)) = 59 := by
    rw [max_eq_right (by norm_num)]
    norm_num
  refine ⟨rfl, ?_⟩
  show cycleSleep (.ranNormally false (max (1/10) ((60 : ℚ) - 1))) ≠ some 5
  rw [cycleSleep, h59]
  intro h
  exact absurd (Option.some_injective _ h) (by norm_num)

/-- Claim C5 (amended): a failed renderer invocation (non-zero exit or
spawn failure) does not reach the 5-second backoff: `render_app` swallows
the failure and returns `False`, so the iteration skips publishing and
sleeps the regular `max(0.1, refresh_rate - elapsed)`; the loop then runs
again (retries are unbounded until cancelled).  The 5-second backoff is
taken only when an exception escapes the loop body itself. -/
theorem c5_failed_render_sleeps_normal_interval (rc : Nat) (refresh : Nat) (elapsed : ℚ)
    (hrc : rc ≠ 0) :
    continuous_render_cycle (.completed rc) none refresh elapsed
      = .ranNormally false (max (1/10) ((refresh : ℚ) - elapsed)) ∧
    continuous_render_cycle .spawnError none refresh elapsed
      = .ranNormally false (max (1/10) ((refresh : ℚ) - elapsed)) ∧
    cycleContinues (continuous_render_cycle (.completed rc) none refresh elapsed) = true ∧
    continuous_render_cycle (.completed rc) (some .exn) refresh elapsed = .errorBackoff 5 := by
  have hra : render_app (.completed rc) = false := by
    simp [render_app, hrc]
  refine ⟨?_, rfl, ?_, rfl⟩
  · simp [continuous_render_cycle, hra]
  · simp [continuous_render_cycle, hra, cycleContinues]

/-- Witness for C5: the hypothesis of
`c5_failed_render_sleeps_normal_interval` holds at a concrete input. -/
theorem c5_witness :
    continuous_render_cycle (.completed 1) none 60 1
      = .ranNormally false (max (1/10) ((60 : ℚ) - 1)) ∧
    continuous_render_cycle .spawnError none 60 1
      = .ranNormally false (max (1/10) ((60 : ℚ) - 1)) ∧
    cycleContinues (continuous_render_cycle (.completed 1) none 60 1) = true ∧
    continuous_render_cycle (.completed 1) (some .exn) 60 1 = .errorBackoff 5 :=
  c5_failed_render_sleeps_normal_interval 1 60 1 (by decide)

/-! ## Claim C4 -/

/-- The entries of the document that actually receive render loops: enabled
and present in the cache.  (There is no `_config` exclusion in
`update_render_tasks`.) -/
def enabledExisting (ex : String → Bool) (md : Metadata) : Metadata :=
  md.filter (fun e => e.2.enabled.getD false && ex e.1)

theorem renderTaskLoop_char (ex : String → Bool) :
    ∀ (md : Metadata) (k : Nat),
      (renderTaskLoop ex k md).map RenderTask.program = (enabledExisting ex md).map Prod.fst ∧
      (renderTaskLoop ex k md).map RenderTask.slot
        = List.range' k (enabledExisting ex md).length := by
  intro md
  induction md with
  | nil => intro k; exact ⟨rfl, rfl⟩
  | cons e rest ih =>
    intro k
    obtain ⟨n, c⟩ := e
    by_cases hen : c.enabled.getD false
    · by_cases hex : ex n
      · have := ih (k + 1)
        simp only [renderTaskLoop, hen, hex, Bool.not_true, Bool.false_eq_true, if_false,
          enabledExisting, List.filter_cons] at this ⊢
        simp only [hen, hex, Bool.and_self, if_true, List.map_cons, List.length_cons,
          List.range'_succ]
        exact ⟨by rw [this.1], by rw [this.2]⟩
      · have := ih k
        simp only [renderTaskLoop, hen, hex, Bool.not_true, Bool.not_false, Bool.false_eq_true,
          if_false, if_true, enabledExisting, List.filter_cons] at this ⊢
        simpa [hen, hex] using this
    · have := ih k
      simp only [renderTaskLoop, hen, Bool.not_false, if_true, enabledExisting,
        List.filter_cons] at this ⊢
      simpa [hen] using this

/-- Stated from the claim C4 wording: the programs the claim says receive
render loops — entries with `enabled = true` that are not the reserved
`_config` entry and whose source path exists, in document order. -/
def c4_claimed_loop_programs (ex : String → Bool) (md : Metadata) : List String :=
  (md.filter (fun e => e.2.enabled.getD false && !(e.1 == "_config") && ex e.1)).map Prod.fst

/-- Claim C4 counterexample: the claim excludes the reserved
global-settings entry from slot assignment, but `update_render_tasks` has
no such exclusion: on a document whose `_config` entry has `enabled = true`
and whose source path exists, the code starts a render loop for `_config`
while the claim says no entry receives one. -/
theorem c4_counterexample :
    (renderTaskLoop (fun _ => true) 0 [("_config", { enabled := some true })]).map
        RenderTask.program = ["_config"] ∧
    c4_claimed_loop_programs (fun _ => true) [("_config", { enabled := some true })] = [] ∧
    (["_config"] : List String) ≠ [] := by
  refine ⟨rfl, rfl, by decide⟩

/-- Claim C4 (amended): reconciliation starts exactly one render loop per
entry that has `enabled = true` and whose source path exists — the reserved
`_config` entry is *not* special-cased (it is skipped only when it lacks
`enabled = true` or its path is missing); an entry with a missing source
path is skipped and consumes no slot; the started loops receive contiguous
slot indices `0..k-1`, index `i` going to the `i`-th such entry in document
iteration order. -/
theorem c4_slot_assignment (ex : String → Bool) (md : Metadata) :
    (renderTaskLoop ex 0 md).map RenderTask.program = (enabledExisting ex md).map Prod.fst ∧
    (renderTaskLoop ex 0 md).map RenderTask.slot
      = List.range (enabledExisting ex md).length := by
  obtain ⟨h1, h2⟩ := renderTaskLoop_char ex md 0
  exact ⟨h1, by rw [h2, List.range_eq_range']⟩

/-! ## Claim C6 -/

theorem processEvents_armed :
    ∀ (events : List FsEvent) (prev : Nat) (k : Nat),
      (∀ e ∈ events, e.isDirectory = false ∧ endsWithTmp e.srcPath = false) →
      List.Chain' (fun a b => b.time < a.time + 2) events →
      (∀ e₀, events.head? = some e₀ → e₀.time < prev + 2) →
      processEvents ⟨some (prev + 2), k⟩ events
        = ⟨some ((events.getLastD ⟨prev, false, ""⟩).time + 2), k⟩ := by
  intro events
  induction events with
  | nil => intro prev k _ _ _; rfl
  | cons e rest ih =>
    intro prev k hv hc hh
    have he := hv e (List.mem_cons_self e rest)
    have ht : e.time < prev + 2 := hh e rfl
    have hfire : fireUpTo ⟨some (prev + 2), k⟩ e.time = ⟨some (prev + 2), k⟩ := by
      simp [fireUpTo, Nat.not_le.mpr ht]
    have harm : on_any_event ⟨some (prev + 2), k⟩ e = ⟨some (e.time + 2), k⟩ := by
      simp [on_any_event, he.1, he.2]
    have hh' : ∀ e₀, rest.head? = some e₀ → e₀.time < e.time + 2 := by
      intro e₀ h₀
      cases rest with
      | nil => simp at h₀
      | cons e2 rest2 =>
        simp only [List.head?_cons, Option.some_inj] at h₀
        subst h₀
        exact (List.chain'_cons.mp hc).1
    have hrec := ih e.time k (fun x hx => hv x (List.mem_cons_of_mem _ hx)) hc.tail hh'
    rw [processEvents, hfire, harm, List.getLastD_cons, hrec]
    cases rest with
    | nil => rfl
    | cons e2 rest2 => rfl

/-- Claim C6: the debouncer keeps at most one pending trigger.  Part 1: a
valid change notification always replaces whatever timer was armed with a
single fresh one whose deadline is 2 seconds later, without the cancelled
timer ever contributing a sync (`syncs` is unchanged) — a second trigger is
never queued.  Part 2: a burst of notifications each arriving within the
2-second window of the previous one results in `checkAndSync` running
exactly once, once the quiet window after the last event has passed. -/
theorem c6_debounce_collapse :
    (∀ (s : DebounceState) (e : FsEvent), e.isDirectory = false →
      endsWithTmp e.srcPath = false → on_any_event s e = ⟨some (e.time + 2), s.syncs⟩) ∧
    (∀ (e₀ : FsEvent) (rest : List FsEvent) (tEnd : Nat),
      (∀ e ∈ e₀ :: rest, e.isDirectory = false ∧ endsWithTmp e.srcPath = false) →
      List.Chain' (fun a b => b.time < a.time + 2) (e₀ :: rest) →
      (rest.getLastD e₀).time + 2 ≤ tEnd →
      runTrace (e₀ :: rest) tEnd = ⟨none, 1⟩) := by
  constructor
  · intro s e hd ht
    simp [on_any_event, hd, ht]
  · intro e₀ rest tEnd hv hc hq
    have he := hv e₀ (List.mem_cons_self e₀ rest)
    have h1 : processEvents initDebounce (e₀ :: rest)
        = processEvents ⟨some (e₀.time + 2), 0⟩ rest := by
      rw [processEvents]
      congr 1
      simp [fireUpTo, initDebounce, on_any_event, he.1, he.2]
    have h2 : processEvents ⟨some (e₀.time + 2), 0⟩ rest
        = ⟨some ((rest.getLastD ⟨e₀.time, false, ""⟩).time + 2), 0⟩ := by
      apply processEvents_armed rest e₀.time 0
        (fun x hx => hv x (List.mem_cons_of_mem _ hx)) hc.tail
      intro x hx
      cases rest with
      | nil => simp at hx
      | cons e2 rest2 =>
        simp only [List.head?_cons, Option.some_inj] at hx
        subst hx
        exact (List.chain'_cons.mp hc).1
    have h3 : (rest.getLastD ⟨e₀.time, false, ""⟩).time = (rest.getLastD e₀).time := by
      cases rest with
      | nil => rfl
      | cons e2 rest2 => rfl
    rw [runTrace, h1, h2, h3]
    simp only [fireUpTo]
    rw [if_pos hq]

/-- Witness for C6: both parts of `c6_debounce_collapse` hold at concrete
inputs — a timer armed for deadline 5 is replaced, and a two-event burst
one second apart produces exactly one sync. -/
theorem c6_witness :
    on_any_event ⟨some 5, 0⟩ ⟨0, false, "a.star"⟩ = ⟨some 2, 0⟩ ∧
    runTrace [⟨0, false, "a.star"⟩, ⟨1, false, "b.star"⟩] 3 = ⟨none, 1⟩ :=
  ⟨c6_debounce_collapse.1 ⟨some 5, 0⟩ ⟨0, false, "a.star"⟩ rfl (by decide),
   c6_debounce_collapse.2 ⟨0, false, "a.star"⟩ [⟨1, false, "b.star"⟩] 3 (by decide)
     (List.chain'_pair.mpr (by decide)) (by decide)⟩

/-! ## Claim C7 -/

/-- The sort key of an entry: its relative path string. -/
def entryKey (f : FsEntry) : String := pathStr f.path

theorem sortedFiles_perm_eq {fs₁ fs₂ : List FsEntry} (hperm : fs₁.Perm fs₂)
    (hnd : ((fs₁.filter hashIncluded).map entryKey).Nodup) :
    sortedFiles fs₁ = sortedFiles fs₂ := by
  have hpf : (fs₁.filter hashIncluded).Perm (fs₂.filter hashIncluded) :=
    hperm.filter hashIncluded
  have hp : (List.insertionSort pathLeP (fs₁.filter hashIncluded)).Perm
      (List.insertionSort pathLeP (fs₂.filter hashIncluded)) :=
    ((List.perm_insertionSort pathLeP _).trans hpf).trans
      (List.perm_insertionSort pathLeP _).symm
  have hnd₁ : ((List.insertionSort pathLeP (fs₁.filter hashIncluded)).map entryKey).Nodup :=
    (((List.perm_insertionSort pathLeP _).map entryKey).nodup_iff).mpr hnd
  have hnd₂ : ((List.insertionSort pathLeP (fs₂.filter hashIncluded)).map entryKey).Nodup :=
    ((hp.map entryKey).nodup_iff).mp hnd₁
  have hs₁ := List.sorted_insertionSort pathLeP (fs₁.filter hashIncluded)
  have hs₂ := List.sorted_insertionSort pathLeP (fs₂.filter hashIncluded)
  have hlt₁ : List.Pairwise (fun a b => pathLeP a b ∧ entryKey a ≠ entryKey b)
      (List.insertionSort pathLeP (fs₁.filter hashIncluded)) :=
    hs₁.and (List.pairwise_map.mp hnd₁)
  have hlt₂ : List.Pairwise (fun a b => pathLeP a b ∧ entryKey a ≠ entryKey b)
      (List.insertionSort pathLeP (fs₂.filter hashIncluded)) :=
    hs₂.and (List.pairwise_map.mp hnd₂)
  haveI : IsAntisymm FsEntry (fun a b => pathLeP a b ∧ entryKey a ≠ entryKey b) :=
    ⟨fun _ _ h₁ h₂ => absurd (strLe_antisymm h₁.1 h₂.1) h₁.2⟩
  exact List.eq_of_perm_of_sorted hp hlt₁ hlt₂

/-- Claim C7: hash stability.  Part 1: two enumerations that are
permutations of the same set of files produce the identical absorbed byte
stream — hence the identical SHA-256 digest — because the fingerprint sorts
by relative path first.  Part 2: with the same enumeration but the contents
of one tracked file replaced by different contents (in particular any
single-byte change), the absorbed stream changes, so the digest changes up
to SHA-256 collision resistance.  The enumeration in part 2 is taken in
sorted order, which by part 1 loses no generality. -/
theorem c7_hash_stability :
    (∀ fs₁ fs₂ : List FsEntry, fs₁.Perm fs₂ →
      ((fs₁.filter hashIncluded).map entryKey).Nodup →
      directoryHashStream fs₁ = directoryHashStream fs₂) ∧
    (∀ (pre post : List FsEntry) (p : List String) (c c' : List Nat),
      hashIncluded ⟨p, true, c⟩ = true →
      List.Pairwise pathLeP (pre ++ FsEntry.mk p true c :: post) →
      c' ≠ c →
      directoryHashStream (pre ++ FsEntry.mk p true c :: post)
        ≠ directoryHashStream (pre ++ FsEntry.mk p true c' :: post)) := by
  constructor
  · intro fs₁ fs₂ hperm hnd
    rw [directoryHashStream, directoryHashStream, sortedFiles_perm_eq hperm hnd]
  · intro pre post p c c' hinc hsorted hne heq
    have hinc' : hashIncluded ⟨p, true, c'⟩ = true := hinc
    have hfilter : (pre ++ FsEntry.mk p true c :: post).filter hashIncluded
        = pre.filter hashIncluded ++ FsEntry.mk p true c :: post.filter hashIncluded := by
      rw [List.filter_append, List.filter_cons, if_pos hinc]
    have hfilter' : (pre ++ FsEntry.mk p true c' :: post).filter hashIncluded
        = pre.filter hashIncluded ++ FsEntry.mk p true c' :: post.filter hashIncluded := by
      rw [List.filter_append, List.filter_cons, if_pos hinc']
    have hsfilt : List.Pairwise pathLeP
        (pre.filter hashIncluded ++ FsEntry.mk p true c :: post.filter hashIncluded) :=
      hfilter ▸ List.Pairwise.sublist (List.filter_sublist _) hsorted
    have hsfilt' : List.Pairwise pathLeP
        (pre.filter hashIncluded ++ FsEntry.mk p true c' :: post.filter hashIncluded) := by
      rw [List.pairwise_append] at hsfilt ⊢
      obtain ⟨hpre, hconsrest, hcross⟩ := hsfilt
      rw [List.pairwise_cons] at hconsrest ⊢
      refine ⟨hpre, ⟨fun y hy => hconsrest.1 y hy, hconsrest.2⟩, ?_⟩
      intro a ha b hb
      rcases List.mem_cons.mp hb with hb | hb
      · subst hb
        exact hcross a ha (FsEntry.mk p true c) (List.mem_cons_self _ _)
      · exact hcross a ha b (List.mem_cons_of_mem _ hb)
    have hsortEq : sortedFiles (pre ++ FsEntry.mk p true c :: post)
        = pre.filter hashIncluded ++ FsEntry.mk p true c :: post.filter hashIncluded := by
      rw [sortedFiles, hfilter]
      exact List.Sorted.insertionSort_eq hsfilt
    have hsortEq' : sortedFiles (pre ++ FsEntry.mk p true c' :: post)
        = pre.filter hashIncluded ++ FsEntry.mk p true c' :: post.filter hashIncluded := by
      rw [sortedFiles, hfilter']
      exact List.Sorted.insertionSort_eq hsfilt'
    rw [directoryHashStream, directoryHashStream, hsortEq, hsortEq', List.map_append,
      List.map_append, List.map_cons, List.map_cons, List.flatten_append, List.flatten_append,
      List.flatten_cons, List.flatten_cons] at heq
    have h₁ := List.append_cancel_left heq
    have h₂ := List.append_cancel_right h₁
    simp only [fileBlock] at h₂
    have h₃ : c = c' := List.append_cancel_left h₂
    exact hne h₃.symm

/-- Witness for C7: both parts of `c7_hash_stability` hold at concrete
inputs — swapping the enumeration order of two files keeps the stream, and
changing the first byte of a file from 1 to 9 changes it. -/
theorem c7_witness :
    directoryHashStream [⟨["b.star"], true, [2]⟩, ⟨["a.star"], true, [1]⟩]
      = directoryHashStream [⟨["a.star"], true, [1]⟩, ⟨["b.star"], true, [2]⟩] ∧
    directoryHashStream [FsEntry.mk ["a.star"] true [1, 2]]
      ≠ directoryHashStream [FsEntry.mk ["a.star"] true [9, 2]] :=
  ⟨c7_hash_stability.1 [⟨["b.star"], true, [2]⟩, ⟨["a.star"], true, [1]⟩]
      [⟨["a.star"], true, [1]⟩, ⟨["b.star"], true, [2]⟩] (by decide) (by decide),
   c7_hash_stability.2 [] [] ["a.star"] [1, 2] [9, 2] (by decide) (by decide) (by decide)⟩

/-! ## Claim C8 -/

/-- Order on zip members by archived path. -/
def memberLeP (a b : String × List Nat) : Prop := strLe a.1 b.1 = true

instance : DecidableRel memberLeP := fun _ _ => instDecidableEqBool _ _

/-- Stated from the claim C8 wording: the archive the claim describes, with
member ordering deterministic by sorted relative path. -/
def c8_claimed_members (fs : List FsEntry) : List (String × List Nat) :=
  List.insertionSort memberLeP (zipMembers fs)

/-- Claim C8 counterexample: the claim says zip members are ordered by
sorted relative path, but `create_zip_archive` writes members in raw
`rglob` enumeration order — on a filesystem that enumerates `b.star`
before `a.star`, the archive's member order is not sorted. -/
theorem c8_counterexample :
    zipMembers [⟨["b.star"], true, [2]⟩, ⟨["a.star"], true, [1]⟩]
      = [("b.star", [2]), ("a.star", [1])] ∧
    c8_claimed_members [⟨["b.star"], true, [2]⟩, ⟨["a.star"], true, [1]⟩]
      = [("a.star", [1]), ("b.star", [2])] ∧
    zipMembers [⟨["b.star"], true, [2]⟩, ⟨["a.star"], true, [1]⟩]
      ≠ c8_claimed_members [⟨["b.star"], true, [2]⟩, ⟨["a.star"], true, [1]⟩] := by
  refine ⟨rfl, by decide, by decide⟩

/-- Claim C8 (amended): the archive's members are exactly the non-hidden
regular files under the watched root, stored under paths relative to that
root — but in the order the filesystem enumerates them, which is a
permutation of (not necessarily equal to) the sorted order. -/
theorem c8_archive_members (fs : List FsEntry) :
    (∀ m : String × List Nat, m ∈ zipMembers fs ↔
      ∃ f ∈ fs, zipIncluded f = true ∧ m = (pathStr f.path, f.contents)) ∧
    (zipMembers fs).Perm (c8_claimed_members fs) := by
  constructor
  · intro m
    simp only [zipMembers, List.mem_map, List.mem_filter]
    constructor
    · rintro ⟨f, ⟨hf, hz⟩, hm⟩
      exact ⟨f, hf, hz, hm.symm⟩
    · rintro ⟨f, hf, hz, hm⟩
      exact ⟨f, ⟨hf, hz⟩, hm.symm⟩
  · exact (List.perm_insertionSort memberLeP _).symm

/-! ## Claim C10 -/

/-- Claim C10 counterexample: the claim concludes that an unchanged
fingerprint implies an identical archive.  The hasher concatenates the path
bytes and the content bytes without any separator, so the directory
containing the single file `ab` with contents `[99]` and the directory
containing the single file `a` with contents `[98, 99]` absorb the same
byte stream — identical fingerprint — while their archives differ. -/
theorem c10_counterexample :
    directoryHashStream [⟨["ab"], true, [99]⟩]
      = directoryHashStream [⟨["a"], true, [98, 99]⟩] ∧
    zipMembers [⟨["ab"], true, [99]⟩] ≠ zipMembers [⟨["a"], true, [98, 99]⟩] := by
  exact ⟨by decide, by decide⟩

/-- Claim C10 (amended): the fingerprint and the archive select exactly the
same files — regular files whose base name does not start with `.`,
including non-hidden files inside hidden directories — and the fingerprint
stream is computed from precisely the files the archive would contain.
However, because path and content bytes are concatenated without
separators, an unchanged fingerprint does not guarantee that the archive
contents are identical. -/
theorem c10_same_file_set (fs : List FsEntry) :
    fs.filter hashIncluded = fs.filter zipIncluded ∧
    zipMembers fs = (fs.filter hashIncluded).map (fun f => (pathStr f.path, f.contents)) ∧
    directoryHashStream fs
      = ((List.insertionSort pathLeP (fs.filter zipIncluded)).map fileBlock).flatten ∧
    hashIncluded ⟨[".config", "prog.star"], true, []⟩ = true ∧
    zipIncluded ⟨[".config", "prog.star"], true, []⟩ = true :=
  ⟨rfl, rfl, rfl, by decide, by decide⟩

/-! ## Claim C9 -/

/-- The server's per-entry condition for starting a loop: enabled and
present in the cache (`update_render_tasks` has no `_config` case). -/
def serverSel (ex : String → Bool) (e : String × ProgEntry) : Bool :=
  e.2.enabled.getD false && ex e.1

/-- The display client's per-entry condition for assigning a slot: not the
reserved `_config` entry, and enabled. -/
def clientSel (e : String × ProgEntry) : Bool :=
  !(e.1 == "_config") && e.2.enabled.getD false

/-- Sequential slot numbering of a name list, starting at `k`. -/
def slotsFrom : Nat → List String → List (String × Nat)
  | _, [] => []
  | k, n :: rest => (n, k) :: slotsFrom (k + 1) rest

/-- The program-to-slot mapping the server's reconciliation produces. -/
def serverAssignment (ex : String → Bool) (md : Metadata) : List (String × Nat) :=
  (renderTaskLoop ex 0 md).map (fun t => (t.program, t.slot))

/-- The program-to-slot mapping the display client computes (the slot
number `N` names the file `slot<N>.gif` it fetches). -/
def clientAssignment (md : Metadata) : List (String × Nat) :=
  (buildEnabled [] md).map (fun p => (p.name, p.slot))

theorem serverAssignment_char (ex : String → Bool) :
    ∀ (md : Metadata) (k : Nat),
      (renderTaskLoop ex k md).map (fun t => (t.program, t.slot))
        = slotsFrom k ((md.filter (serverSel ex)).map Prod.fst) := by
  intro md
  induction md with
  | nil => intro k; rfl
  | cons e rest ih =>
    intro k
    obtain ⟨n, c⟩ := e
    by_cases hen : c.enabled.getD false
    · by_cases hex : ex n
      · simp only [renderTaskLoop, hen, hex, Bool.not_true, Bool.false_eq_true, if_false,
          List.filter_cons, serverSel, Bool.and_self, if_true, List.map_cons, slotsFrom]
        exact congrArg _ (ih (k + 1))
      · simp only [renderTaskLoop, hen, hex, Bool.not_true, Bool.not_false, Bool.false_eq_true,
          if_false, if_true, List.filter_cons, serverSel]
        simpa [hen, hex] using ih k
    · simp only [renderTaskLoop, hen, Bool.not_false, if_true, List.filter_cons, serverSel]
      simpa [hen] using ih k

theorem buildEnabled_char :
    ∀ (md : Metadata) (acc : List DisplayProg),
      (buildEnabled acc md).map (fun p => (p.name, p.slot))
        = acc.map (fun p => (p.name, p.slot))
          ++ slotsFrom acc.length ((md.filter clientSel).map Prod.fst) := by
  intro md
  induction md with
  | nil => intro acc; simp [buildEnabled, slotsFrom]
  | cons e rest ih =>
    intro acc
    obtain ⟨n, c⟩ := e
    by_cases hcfg : n = "_config"
    · simp only [buildEnabled, hcfg, if_true, List.filter_cons, clientSel]
      simpa using ih acc
    · by_cases hen : c.enabled.getD false
      · have hbne : (n == "_config") = false := beq_eq_false_iff_ne.mpr hcfg
        simp only [buildEnabled, hcfg, if_false, hen, if_true, List.filter_cons, clientSel,
          hbne, Bool.not_false, Bool.true_and, List.map_cons, slotsFrom]
        rw [ih]
        simp [slotsFrom, List.append_assoc]
      · simp only [buildEnabled, hcfg, if_false, hen, List.filter_cons, clientSel]
        simpa [hen] using ih acc

theorem lookup_slotsFrom_split :
    ∀ (ns₁ : List String) (k : Nat) (n : String) (ns₂ : List String), n ∉ ns₁ →
      (slotsFrom k (ns₁ ++ n :: ns₂)).lookup n = some (k + ns₁.length) := by
  intro ns₁
  induction ns₁ with
  | nil =>
    intro k n ns₂ _
    simp [slotsFrom, List.lookup]
  | cons a ns ih =>
    intro k n ns₂ hn
    have hna : (n == a) = false :=
      beq_eq_false_iff_ne.mpr fun h => hn (by rw [h]; exact List.mem_cons_self a ns)
    simp only [List.cons_append, slotsFrom, List.lookup, hna, List.append_eq]
    rw [ih (k + 1) n ns₂ (fun h => hn (List.mem_cons_of_mem _ h))]
    congr 1
    simp only [List.length_cons]
    omega

theorem lookup_slotsFrom_not_mem :
    ∀ (ns : List String) (k : Nat) (n : String), n ∉ ns →
      (slotsFrom k ns).lookup n = none := by
  intro ns
  induction ns with
  | nil => intro k n _; rfl
  | cons a rest ih =>
    intro k n hn
    have hna : (n == a) = false :=
      beq_eq_false_iff_ne.mpr fun h => hn (by rw [h]; exact List.mem_cons_self a rest)
    simp only [slotsFrom, List.lookup, hna]
    exact ih (k + 1) n (fun h => hn (List.mem_cons_of_mem _ h))

/-- Claim C9: agreement of the display client's slot computation with the
server's slot assignment.  Part 1: when the reserved `_config` entry is not
enabled and every enabled entry's source file exists in the cache, the two
program-to-slot mappings are identical.  Part 2: when some enabled entry
`m` has no source file in the cache, the mappings disagree (as lookups by
program name) for every enabled entry that follows `m` in document order —
the server shifts later slots down, or omits the entry entirely if its own
file is also missing. -/
theorem c9_slot_agreement (ex : String → Bool) :
    (∀ md : Metadata,
      (∀ e ∈ md, e.1 = "_config" → e.2.enabled.getD false = false) →
      (∀ e ∈ md, e.2.enabled.getD false = true → ex e.1 = true) →
      serverAssignment ex md = clientAssignment md) ∧
    (∀ (pre : Metadata) (m : String) (cm : ProgEntry) (post : Metadata),
      (∀ e ∈ pre ++ (m, cm) :: post, e.1 = "_config" → e.2.enabled.getD false = false) →
      cm.enabled.getD false = true → ex m = false →
      ((pre ++ (m, cm) :: post).map Prod.fst).Nodup →
      ∀ p ∈ post, p.2.enabled.getD false = true →
        (serverAssignment ex (pre ++ (m, cm) :: post)).lookup p.1
          ≠ (clientAssignment (pre ++ (m, cm) :: post)).lookup p.1) := by
  have hchar_s : ∀ md : Metadata,
      serverAssignment ex md = slotsFrom 0 ((md.filter (serverSel ex)).map Prod.fst) :=
    fun md => serverAssignment_char ex md 0
  have hchar_c : ∀ md : Metadata,
      clientAssignment md = slotsFrom 0 ((md.filter clientSel).map Prod.fst) := by
    intro md
    rw [clientAssignment, buildEnabled_char md []]
    rfl
  constructor
  · intro md hcfg hex
    rw [hchar_s, hchar_c]
    congr 2
    apply List.filter_congr
    intro e hmem
    cases hen : e.2.enabled.getD false with
    | false => simp [serverSel, clientSel, hen]
    | true =>
      have hx := hex e hmem hen
      have hncfg : e.1 ≠ "_config" := by
        intro h
        have hfalse := hcfg e hmem h
        rw [hen] at hfalse
        exact absurd hfalse (by decide)
      simp [serverSel, clientSel, hen, hx, beq_eq_false_iff_ne.mpr hncfg]
  · intro pre m cm post hcfg hmen hmex hnodup p hp hpen
    obtain ⟨post₁, post₂, hpost⟩ := List.append_of_mem hp
    subst hpost
    set seg : Metadata := pre ++ (m, cm) :: post₁ with hseg
    have hmd2 : pre ++ (m, cm) :: (post₁ ++ p :: post₂) = seg ++ p :: post₂ := by
      rw [hseg]
      simp [List.append_assoc]
    have hpmem : p ∈ pre ++ (m, cm) :: (post₁ ++ p :: post₂) := by
      rw [hmd2]
      exact List.mem_append_right _ (List.mem_cons_self _ _)
    have hmmem : (m, cm) ∈ pre ++ (m, cm) :: (post₁ ++ p :: post₂) :=
      List.mem_append_right _ (List.mem_cons_self _ _)
    have hkeys : ((seg ++ p :: post₂).map Prod.fst).Nodup := by
      rw [← hmd2]
      exact hnodup
    have hkeys' : (seg.map Prod.fst ++ p.1 :: post₂.map Prod.fst).Nodup := by
      simpa using hkeys
    have hnd2 : (p.1 :: (seg.map Prod.fst ++ post₂.map Prod.fst)).Nodup :=
      (List.perm_middle.nodup_iff).mp hkeys'
    have hpnot := (List.nodup_cons.mp hnd2).1
    have hpnot_seg : p.1 ∉ seg.map Prod.fst := fun h => hpnot (List.mem_append_left _ h)
    have hpnot_post₂ : p.1 ∉ post₂.map Prod.fst := fun h => hpnot (List.mem_append_right _ h)
    have hpcfg : p.1 ≠ "_config" := by
      intro h
      have hfalse := hcfg p hpmem h
      rw [hpen] at hfalse
      exact absurd hfalse (by decide)
    have hclp : clientSel p = true := by
      simp [clientSel, hpen, beq_eq_false_iff_ne.mpr hpcfg]
    have hclient_names :
        ((pre ++ (m, cm) :: (post₁ ++ p :: post₂)).filter clientSel).map Prod.fst
          = (seg.filter clientSel).map Prod.fst
            ++ p.1 :: (post₂.filter clientSel).map Prod.fst := by
      rw [hmd2, List.filter_append, List.filter_cons, if_pos hclp, List.map_append,
        List.map_cons]
    have hpnot_clseg : p.1 ∉ (seg.filter clientSel).map Prod.fst := fun h =>
      hpnot_seg (((List.filter_sublist seg).map Prod.fst).subset h)
    have hlc : (clientAssignment (pre ++ (m, cm) :: (post₁ ++ p :: post₂))).lookup p.1
        = some (0 + ((seg.filter clientSel).map Prod.fst).length) := by
      rw [hchar_c, hclient_names]
      exact lookup_slotsFrom_split _ 0 p.1 _ hpnot_clseg
    have hmcfg : m ≠ "_config" := by
      intro h
      have hfalse := hcfg (m, cm) hmmem h
      rw [hmen] at hfalse
      exact absurd hfalse (by decide)
    have hclm : clientSel (m, cm) = true := by
      simp [clientSel, hmen, beq_eq_false_iff_ne.mpr hmcfg]
    have hsm : serverSel ex (m, cm) = false := by
      simp [serverSel, hmex]
    have hmono : ∀ e ∈ pre ++ (m, cm) :: (post₁ ++ p :: post₂),
        serverSel ex e = true → clientSel e = true := by
      intro e hmem hs
      have hen : e.2.enabled.getD false = true := by
        have := hs
        simp only [serverSel, Bool.and_eq_true] at this
        exact this.1
      have hncfg : e.1 ≠ "_config" := by
        intro h
        have hfalse := hcfg e hmem h
        rw [hen] at hfalse
        exact absurd hfalse (by decide)
      simp [clientSel, hen, beq_eq_false_iff_ne.mpr hncfg]
    have hseg_s : seg.filter (serverSel ex)
        = pre.filter (serverSel ex) ++ post₁.filter (serverSel ex) := by
      rw [hseg, List.filter_append, List.filter_cons]
      simp [hsm]
    have hseg_c : seg.filter clientSel
        = pre.filter clientSel ++ (m, cm) :: post₁.filter clientSel := by
      rw [hseg, List.filter_append, List.filter_cons]
      simp [hclm]
    have h1 : (pre.filter (serverSel ex)).length ≤ (pre.filter clientSel).length := by
      rw [← List.countP_eq_length_filter, ← List.countP_eq_length_filter]
      exact List.countP_mono_left fun e he hs => hmono e (List.mem_append_left _ he) hs
    have h2 : (post₁.filter (serverSel ex)).length ≤ (post₁.filter clientSel).length := by
      rw [← List.countP_eq_length_filter, ← List.countP_eq_length_filter]
      exact List.countP_mono_left fun e he hs =>
        hmono e (List.mem_append_right _ (List.mem_cons_of_mem _
          (List.mem_append_left _ he))) hs
    have hlen_lt : (seg.filter (serverSel ex)).length < (seg.filter clientSel).length := by
      rw [hseg_s, hseg_c]
      simp only [List.length_append, List.length_cons]
      omega
    cases hpx : ex p.1 with
    | false =>
      have hsp : serverSel ex p = false := by
        simp [serverSel, hpx]
      have hserver_names :
          ((pre ++ (m, cm) :: (post₁ ++ p :: post₂)).filter (serverSel ex)).map Prod.fst
            = (seg.filter (serverSel ex)).map Prod.fst
              ++ (post₂.filter (serverSel ex)).map Prod.fst := by
        rw [hmd2, List.filter_append, List.filter_cons]
        simp [hsp]
      have hnotin : p.1 ∉ (seg.filter (serverSel ex)).map Prod.fst
          ++ (post₂.filter (serverSel ex)).map Prod.fst := by
        intro h
        rcases List.mem_append.mp h with h | h
        · exact hpnot_seg (((List.filter_sublist seg).map Prod.fst).subset h)
        · exact hpnot_post₂ (((List.filter_sublist post₂).map Prod.fst).subset h)
      rw [hchar_s, hserver_names, hlc, lookup_slotsFrom_not_mem _ 0 p.1 hnotin]
      simp
    | true =>
      have hsp : serverSel ex p = true := by
        simp [serverSel, hpen, hpx]
      have hserver_names :
          ((pre ++ (m, cm) :: (post₁ ++ p :: post₂)).filter (serverSel ex)).map Prod.fst
            = (seg.filter (serverSel ex)).map Prod.fst
              ++ p.1 :: (post₂.filter (serverSel ex)).map Prod.fst := by
        rw [hmd2, List.filter_append, List.filter_cons, if_pos hsp, List.map_append,
          List.map_cons]
      have hpnot_sseg : p.1 ∉ (seg.filter (serverSel ex)).map Prod.fst := fun h =>
        hpnot_seg (((List.filter_sublist seg).map Prod.fst).subset h)
      have hls : (serverAssignment ex (pre ++ (m, cm) :: (post₁ ++ p :: post₂))).lookup p.1
          = some (0 + ((seg.filter (serverSel ex)).map Prod.fst).length) := by
        rw [hchar_s, hserver_names]
        exact lookup_slotsFrom_split _ 0 p.1 _ hpnot_sseg
      rw [hls, hlc]
      intro h
      have hinj := Option.some.inj h
      simp only [List.length_map] at hinj
      omega

/-- Witness for C9: both parts of `c9_slot_agreement` hold at concrete
inputs.  For part 1 the two mappings coincide on a two-program document
with everything present; for part 2, with `a.star` enabled but missing from
the cache, the following enabled program `b.star` gets server slot 0 but
client slot 1. -/
theorem c9_witness :
    serverAssignment (fun _ => true)
        [("a.star", { enabled := some true }), ("b.star", { enabled := some true })]
      = clientAssignment
        [("a.star", { enabled := some true }), ("b.star", { enabled := some true })] ∧
    (serverAssignment (fun n => !(n == "a.star"))
        ([] ++ ("a.star", { enabled := some true }) :: [("b.star", { enabled := some true })])).lookup "b.star"
      ≠ (clientAssignment
        ([] ++ ("a.star", { enabled := some true }) :: [("b.star", { enabled := some true })])).lookup "b.star" :=
  ⟨(c9_slot_agreement (fun _ => true)).1
      [("a.star", { enabled := some true }), ("b.star", { enabled := some true })]
      (by decide) (by decide),
   (c9_slot_agreement (fun n => !(n == "a.star"))).2
      [] "a.star" { enabled := some true } [("b.star", { enabled := some true })]
      (by decide) (by decide) (by decide) (by decide)
      ("b.star", { enabled := some true }) (by decide) (by decide)⟩

end DIYbyt
